import Mathlib

/-!
# Verification of the `mastery` multi-instance data reconciliation engine

Shallow embedding of the core of the `mastery` time-tracking application:
the snapshot merge engine (`src/sync.ts`), the snapshot validator
(`SyncManager.validateSyncData`), the achievement evaluator
(`MasteryApp.evaluateAchievements` in `src/app.ts` together with
`src/achievements.ts`), and the daily-streak computation
(`calculateDailyStreak` in `src/time.ts`).

Modelling conventions:
- JavaScript numbers are modelled as `ℚ` where the code does arithmetic on
  fractional quantities (hours, thresholds, completion ratios) and as `Int`
  where the code holds epoch-millisecond timestamps.
- JavaScript `Map` objects are modelled as insertion-ordered association
  lists (`JsMap`): `set` on a present key replaces the value in place,
  `set` on an absent key appends; `values()` is the list of values in
  insertion order. This matches the iteration-order guarantees of `Map`.
- JavaScript string comparison (code-unit lexicographic) is modelled by
  Lean `String` order.
- `calculateDailyStreak` bucketing uses local-time midnights and
  `YYYY-MM-DD` string day keys; `formatDateKey`/`parseDateKey` form an
  order isomorphism between day keys and day-start timestamps, so days are
  represented directly by their day-start timestamps, with the local time
  zone offset taken as zero.
-/

namespace Mastery

/-- Goal record (`types.ts` / `storage.ts sanitizeGoal`). -/
structure Goal where
  id : String
  title : String
  description : String
  totalHours : ℚ
  totalTimeSpent : ℚ
  isActive : Bool
  isArchived : Bool
  startTime : Option Int
  createdAt : Int
  lastModified : Int
  instanceId : String
deriving DecidableEq, Repr

/-- Immutable completed time interval (`types.ts` / `storage.ts loadSessions`). -/
structure GoalSession where
  id : String
  goalId : String
  startTime : Int
  endTime : Int
  duration : Int
  instanceId : String
deriving DecidableEq, Repr

/-- Unlocked-achievement evidence (`types.ts` / `storage.ts loadAchievements`;
`evaluateAchievements` creates records with exactly these four fields). -/
structure AchievementRecord where
  id : String
  goalId : String
  unlockedAt : Int
  seen : Bool
deriving DecidableEq, Repr

/-- Currently-running timer mirror (`types.ts`). -/
structure ActiveSession where
  goalId : String
  startTime : Int
  lastUpdated : Int
deriving DecidableEq, Repr

/-- Versioned snapshot bundle (`SyncData` in `types.ts`). -/
structure SyncData where
  version : Int
  instanceId : String
  exportedAt : Int
  goals : List Goal
  sessions : List GoalSession
  achievements : List AchievementRecord
  activeSession : Option ActiveSession
deriving DecidableEq, Repr

/-- Conflict log entry (`SyncConflict` in `types.ts`). Only goal conflicts are
ever produced by `SyncManager.merge`. The TS fields `local` and `remote` are
named `localVersion` and `remoteVersion` here (`local` is a Lean keyword). -/
structure SyncConflict where
  type : String
  id : String
  localVersion : Goal
  remoteVersion : Goal
  resolution : String
deriving DecidableEq, Repr

/-- Result of `SyncManager.merge`. -/
structure MergeResult where
  goals : List Goal
  sessions : List GoalSession
  achievements : List AchievementRecord
  activeSession : Option ActiveSession
  conflicts : List SyncConflict
deriving DecidableEq, Repr

/-! ## JavaScript `Map` as an insertion-ordered association list -/

/-- A JS `Map` keyed by strings: list of key/value pairs in insertion order. -/
abbrev JsMap (α : Type) := List (String × α)

namespace JsMap

/-- `map.get(k)` : the value stored at the entry with key `k` (a `Map` holds
at most one entry per key). -/
def get? : JsMap α → String → Option α
  | [], _ => none
  | p :: rest, k => if p.1 = k then some p.2 else get? rest k

/-- `map.has(k)`. -/
def has (m : JsMap α) (k : String) : Bool :=
  (m.get? k).isSome

/-- `map.set(k, v)` : replace in place (keeping the entry's position) if the
key is present, else append at the end. -/
def set : JsMap α → String → α → JsMap α
  | [], k, v => [(k, v)]
  | p :: rest, k, v => if p.1 = k then (k, v) :: rest else p :: set rest k v

/-- `Array.from(map.values())`. -/
def values (m : JsMap α) : List α :=
  m.map Prod.snd

/-- `new Map(list.map(v => [key v, v]))`, equivalently successive `set`s. -/
def ofList (key : α → String) (l : List α) : JsMap α :=
  l.foldl (fun m v => m.set (key v) v) []

end JsMap

/-! ## Merge engine (`src/sync.ts`) -/

/-- One iteration of the remote-goals loop in `SyncManager.mergeGoals`
(`sync.ts` lines 83–127): Last-Write-Wins on `lastModified`, lexicographic
`instanceId` tie-break, conflict recorded whenever the id exists on both
sides. -/
def mergeGoalStep (m : JsMap Goal) (conflicts : List SyncConflict) (remoteGoal : Goal) :
    JsMap Goal × List SyncConflict :=
  match m.get? remoteGoal.id with
  | none => (m.set remoteGoal.id remoteGoal, conflicts)
  | some localGoal =>
    if localGoal.lastModified < remoteGoal.lastModified then
      (m.set remoteGoal.id remoteGoal,
        conflicts ++ [⟨"goal", remoteGoal.id, localGoal, remoteGoal, "remote"⟩])
    else if remoteGoal.lastModified < localGoal.lastModified then
      (m, conflicts ++ [⟨"goal", localGoal.id, localGoal, remoteGoal, "local"⟩])
    else
      let useRemote := decide (localGoal.instanceId < remoteGoal.instanceId)
      ((if useRemote then m.set remoteGoal.id remoteGoal else m),
        conflicts ++ [⟨"goal", remoteGoal.id, localGoal, remoteGoal,
          if useRemote then "remote" else "local"⟩])

/-- The remote-goals loop of `SyncManager.mergeGoals`. -/
def mergeGoalsLoop (m : JsMap Goal) (conflicts : List SyncConflict) :
    List Goal → JsMap Goal × List SyncConflict
  | [] => (m, conflicts)
  | r :: rest =>
    let s := mergeGoalStep m conflicts r
    mergeGoalsLoop s.1 s.2 rest

/-- `SyncManager.mergeGoals` (`sync.ts` lines 74–130): seed the map with all
local goals, fold the remote goals through the LWW loop, return the map values
and the accumulated conflicts. -/
def mergeGoals (localGoals remoteGoals : List Goal) :
    List Goal × List SyncConflict :=
  let res := mergeGoalsLoop (JsMap.ofList Goal.id localGoals) [] remoteGoals
  (res.1.values, res.2)

/-- The remote loop of `SyncManager.mergeSessions`: insert if absent. -/
def mergeSessionsLoop (m : JsMap GoalSession) : List GoalSession → JsMap GoalSession
  | [] => m
  | s :: rest =>
    mergeSessionsLoop (if m.has s.id then m else m.set s.id s) rest

/-- `SyncManager.mergeSessions` (`sync.ts` lines 136–153): dedup-union keyed
by id, output sorted ascending by `startTime`. `Array.prototype.sort` is a
stable sort; it is modelled by a stable insertion sort on the same key. -/
def mergeSessions (localSessions remoteSessions : List GoalSession) :
    List GoalSession :=
  ((mergeSessionsLoop (JsMap.ofList GoalSession.id localSessions)
      remoteSessions).values).insertionSort (fun a b => a.startTime ≤ b.startTime)

/-- One iteration of the remote loop in `SyncManager.mergeAchievements`
(`sync.ts` lines 171–181): insert if absent, otherwise keep the record with
the earlier `unlockedAt`. -/
def mergeAchievementStep (m : JsMap AchievementRecord) (a : AchievementRecord) :
    JsMap AchievementRecord :=
  match m.get? a.id with
  | none => m.set a.id a
  | some existing =>
    if a.unlockedAt < existing.unlockedAt then m.set a.id a else m

/-- The remote loop of `SyncManager.mergeAchievements`. -/
def mergeAchievementsLoop (m : JsMap AchievementRecord) :
    List AchievementRecord → JsMap AchievementRecord
  | [] => m
  | a :: rest => mergeAchievementsLoop (mergeAchievementStep m a) rest

/-- `SyncManager.mergeAchievements` (`sync.ts` lines 159–184). -/
def mergeAchievements (localAchievements remoteAchievements : List AchievementRecord) :
    List AchievementRecord :=
  (mergeAchievementsLoop (JsMap.ofList AchievementRecord.id localAchievements)
      remoteAchievements).values

/-- `SyncManager.mergeActiveSession` (`sync.ts` lines 189–199). -/
def mergeActiveSession :
    Option ActiveSession → Option ActiveSession → Option ActiveSession
  | none, none => none
  | none, some r => some r
  | some l, none => some l
  | some l, some r => if l.lastUpdated < r.lastUpdated then some r else some l

/-- `SyncManager.merge` (`sync.ts` lines 47–69). -/
def merge (localData remoteData : SyncData) : MergeResult :=
  let gs := mergeGoals localData.goals remoteData.goals
  { goals := gs.1
    sessions := mergeSessions localData.sessions remoteData.sessions
    achievements := mergeAchievements localData.achievements remoteData.achievements
    activeSession := mergeActiveSession localData.activeSession remoteData.activeSession
    conflicts := gs.2 }

/-! ## Untrusted JavaScript values and `SyncManager.validateSyncData` -/

/-- Untyped JavaScript value, as received from a peer or a backup file
(`remoteData: any`). Objects are insertion-ordered field lists. -/
inductive JSValue where
  | undef : JSValue
  | null : JSValue
  | bool (b : Bool) : JSValue
  | num (x : ℚ) : JSValue
  | str (s : String) : JSValue
  | arr (elems : List JSValue) : JSValue
  | obj (fields : List (String × JSValue)) : JSValue

namespace JSValue

/-- JavaScript `typeof`. `null` and arrays are both `"object"`. -/
def typeof : JSValue → String
  | undef => "undefined"
  | null => "object"
  | bool _ => "boolean"
  | num _ => "number"
  | str _ => "string"
  | arr _ => "object"
  | obj _ => "object"

/-- JavaScript truthiness (`NaN` is not representable in the `ℚ` model). -/
def truthy : JSValue → Bool
  | undef => false
  | null => false
  | bool b => b
  | num x => x ≠ 0
  | str s => s ≠ ""
  | arr _ => true
  | obj _ => true

/-- First field with the given name, if any. -/
def lookup : List (String × JSValue) → String → Option JSValue
  | [], _ => none
  | p :: rest, k => if p.1 = k then some p.2 else lookup rest k

/-- JavaScript property access `v[k]`: `undefined` for a missing field and for
non-objects (the validator only accesses fields after the object check). -/
def getField : JSValue → String → JSValue
  | obj fields, k => (lookup fields k).getD undef
  | _, _ => undef

/-- `Array.isArray`. -/
def isArray : JSValue → Bool
  | arr _ => true
  | _ => false

/-- Replace the first field with name `k` (in place), or append it. -/
def setField : List (String × JSValue) → String → JSValue → List (String × JSValue)
  | [], k, v => [(k, v)]
  | p :: rest, k, v => if p.1 = k then (k, v) :: rest else p :: setField rest k v

/-- Remove every field with name `k`. -/
def eraseField : List (String × JSValue) → String → List (String × JSValue)
  | [], _ => []
  | p :: rest, k => if p.1 = k then eraseField rest k else p :: eraseField rest k

end JSValue

open JSValue in
/-- `SyncManager.validateSyncData` (`sync.ts` lines 204–213). The source is a
chain of early `return false`s; that chain is the conjunction below, in the
same order. Note that no field other than `version`, `instanceId`,
`exportedAt`, `goals`, `sessions`, `achievements` is inspected, and the
`version` number is only checked for being a number. -/
def validateSyncData (data : JSValue) : Bool :=
  truthy data &&
  (typeof data == "object") &&
  (typeof (getField data "version") == "number") &&
  (typeof (getField data "instanceId") == "string") &&
  (typeof (getField data "exportedAt") == "number") &&
  isArray (getField data "goals") &&
  isArray (getField data "sessions") &&
  isArray (getField data "achievements")

/-! ## Achievement definitions (`src/achievements.ts`, goal-progress scheme) -/

/-- Achievement catalog entry (`AchievementDefinition` in `types.ts`,
goal-progress variant). -/
structure AchievementDefinition where
  id : String
  goalId : String
  title : String
  description : String
  category : String
  threshold : ℚ
deriving DecidableEq, Repr

def GOAL_PROGRESS_THRESHOLDS : List ℚ := [25, 50, 75, 100]

/-- Hexadecimal digit (uppercase), as used by `encodeURIComponent`. -/
def hexDigit (n : Nat) : Char :=
  if n < 10 then Char.ofNat (48 + n) else Char.ofNat (55 + n)

/-- UTF-8 bytes of a character (code points are Unicode scalar values). -/
def utf8Bytes (c : Char) : List Nat :=
  let n := c.toNat
  if n < 128 then [n]
  else if n < 2048 then [192 + n / 64, 128 + n % 64]
  else if n < 65536 then [224 + n / 4096, 128 + (n / 64) % 64, 128 + n % 64]
  else [240 + n / 262144, 128 + (n / 4096) % 64, 128 + (n / 64) % 64, 128 + n % 64]

/-- Characters that `encodeURIComponent` leaves unescaped. -/
def isUnreservedURIChar (c : Char) : Bool :=
  c.isAlphanum || c = '-' || c = '_' || c = '.' || c = '!' || c = '~' ||
    c = '*' || c = Char.ofNat 39 || c = '(' || c = ')'

/-- JavaScript `encodeURIComponent`: percent-encode the UTF-8 bytes of every
character outside the unreserved set. -/
def encodeURIComponent (s : String) : String :=
  String.join (s.data.map (fun c =>
    if isUnreservedURIChar c then String.singleton c
    else String.join ((utf8Bytes c).map (fun b =>
      String.mk ['%', hexDigit (b / 16), hexDigit (b % 16)]))))

/-- `encodeGoalProgressId` (`achievements.ts`): the template literal
`goal:` + `encodeURIComponent(goalId)` + `:progress:` + percent. -/
def encodeGoalProgressId (goalId : String) (percent : ℚ) : String :=
  "goal:" ++ encodeURIComponent goalId ++ ":progress:" ++ toString percent

/-- `createGoalProgressDefinition` (`achievements.ts`). -/
def createGoalProgressDefinition (goal : Goal) (percent : ℚ) : AchievementDefinition :=
  { id := encodeGoalProgressId goal.id percent
    goalId := goal.id
    title := toString percent ++ "% Complete"
    description := "Reach " ++ toString percent ++ "% of planned hours for \"" ++
      goal.title ++ "\"."
    category := "goal-progress"
    threshold := percent }

/-- `buildAchievementDefinitionsForGoal` (`achievements.ts`). -/
def buildAchievementDefinitionsForGoal (goal : Goal) : List AchievementDefinition :=
  GOAL_PROGRESS_THRESHOLDS.map (createGoalProgressDefinition goal)

/-- `buildAchievementDefinitions` (`achievements.ts`): the full catalog is the
flat map over the current goals. -/
def buildAchievementDefinitions (goals : List Goal) : List AchievementDefinition :=
  goals.flatMap buildAchievementDefinitionsForGoal

/-! ## Achievement evaluation (`MasteryApp.evaluateAchievements`, `app.ts`) -/

/-- `hoursToMilliseconds` (`time.ts` lines 30–32). -/
def hoursToMilliseconds (hours : ℚ) : ℚ := hours * 3600000

/-- State carried by the `definitions.forEach` loop of `evaluateAchievements`:
the growing `records` array and the `recordMap` keyed by record id. -/
structure EvalState where
  records : List AchievementRecord
  recordMap : JsMap AchievementRecord

/-- One iteration of the `definitions.forEach` body in `evaluateAchievements`
(`app.ts` lines 946–967): look the goal up by the definition's `goalId`, skip
a missing goal, skip a goal whose target converts to `0` ms (division-by-zero
guard), unlock when the completion ratio reaches the threshold and the record
id is not yet present. -/
def evalAchievementStep (goalMap : JsMap Goal) (now : Int) (st : EvalState)
    (definition : AchievementDefinition) : EvalState :=
  match goalMap.get? definition.goalId with
  | none => st
  | some goal =>
    let totalMs := hoursToMilliseconds goal.totalHours
    if ¬ (0 < totalMs) then st
    else
      let completionRatio := goal.totalTimeSpent / totalMs
      let requiredRatio := definition.threshold / 100
      if requiredRatio ≤ completionRatio ∧ ¬ st.recordMap.has definition.id then
        let record : AchievementRecord :=
          { id := definition.id, goalId := goal.id, unlockedAt := now, seen := false }
        { records := st.records ++ [record]
          recordMap := st.recordMap.set record.id record }
      else st

/-- The record-updating core of `MasteryApp.evaluateAchievements` (`app.ts`
lines 936–980), with `Date.now()` passed as `now`. It rebuilds the definition
catalog, filters the stored records down to those whose `goalId` still names
an existing goal, then appends a record for every newly satisfied definition.
The DOM/notification tail of the method is out of scope; the returned list is
what the method assigns to `this.achievements` and persists via
`saveAchievements`. -/
def evaluateAchievements (goals : List Goal) (achievements : List AchievementRecord)
    (now : Int) : List AchievementRecord :=
  let definitions := buildAchievementDefinitions goals
  let validGoalIds := goals.map Goal.id
  let records := achievements.filter (fun r => validGoalIds.contains r.goalId)
  let recordMap := JsMap.ofList AchievementRecord.id records
  let goalMap := JsMap.ofList Goal.id goals
  (definitions.foldl (evalAchievementStep goalMap now)
    { records := records, recordMap := recordMap }).records

/-! ## Daily streak (`calculateDailyStreak`, `src/time.ts` lines 99–158) -/

def MS_PER_DAY : Int := 86400000

/-- `startOfDay` (`time.ts` lines 5–9): local-time midnight of the day holding
`timestamp`, with the local offset taken as zero (floor to a day boundary). -/
def startOfDay (timestamp : Int) : Int :=
  MS_PER_DAY * (Int.fdiv timestamp MS_PER_DAY)

/-- Day keys contributed by one session (the `sessions.forEach` body,
`time.ts` lines 111–135): clamp the interval to `now`, drop empty intervals,
walk the covered days and keep those with positive overlap. Days are
represented by their day-start timestamps (see the header note on
`formatDateKey`). -/
def sessionDayStarts (now : Int) (s : GoalSession) : List Int :=
  let sessionEnd := min s.endTime now
  let sessionStart := min s.startTime sessionEnd
  if sessionEnd ≤ sessionStart then []
  else
    let firstDay := startOfDay sessionStart
    let lastDay := startOfDay sessionEnd
    let dayCount := (lastDay - firstDay).toNat / 86400000 + 1
    (List.range dayCount).filterMap (fun i =>
      let dayStart := firstDay + MS_PER_DAY * i
      let dayEnd := dayStart + MS_PER_DAY
      let overlapStart := max sessionStart dayStart
      let overlapEnd := min sessionEnd dayEnd
      if 0 < overlapEnd - overlapStart then some dayStart else none)

/-- The `Set` of day keys accumulated over all sessions (insertion-ordered,
duplicates ignored). -/
def collectDayKeys (sessions : List GoalSession) (now : Int) : List Int :=
  sessions.foldl (fun acc s =>
    (sessionDayStarts now s).foldl (fun a d => if d ∈ a then a else a ++ [d]) acc) []

/-- The consecutive-run scan (`time.ts` lines 147–155): extend the streak
while each next (strictly older) day is exactly one day earlier, stop at the
first gap. -/
def streakRun : Int → List Int → Nat
  | _, [] => 0
  | previous, current :: rest =>
    if previous - current = MS_PER_DAY then 1 + streakRun current rest else 0

/-- `calculateDailyStreak` (`time.ts` lines 99–158): bucket sessions into
days, keep days not after today, sort descending (the day keys are distinct,
so any comparison sort gives the same list), count the run of consecutive
days starting from the most recent one. -/
def calculateDailyStreak (sessions : List GoalSession) (now : Int) : Nat :=
  if sessions.isEmpty then 0
  else
    let todayStart := startOfDay now
    let filtered := (collectDayKeys sessions now).filter (fun k => k ≤ todayStart)
    match filtered.insertionSort (fun a b => b ≤ a) with
    | [] => 0
    | first :: rest => 1 + streakRun first rest

/-! ## Concrete sample data (used to witness the theorems below) -/

/-- A sample goal with the given id, `lastModified` and `instanceId`. -/
def sampleGoal (i : String) (lm : Int) (inst : String) : Goal :=
  { id := i
    title := "Goal"
    description := ""
    totalHours := 10
    totalTimeSpent := 0
    isActive := false
    isArchived := false
    startTime := none
    createdAt := 0
    lastModified := lm
    instanceId := inst }

/-- A snapshot holding the given goals and nothing else. -/
def snapWith (goals : List Goal) : SyncData :=
  { version := 1
    instanceId := "me"
    exportedAt := 0
    goals := goals
    sessions := []
    achievements := []
    activeSession := none }

/-- A one-hour session starting at timestamp `d`. -/
def sampleSession (d : Int) (i : String) : GoalSession :=
  { id := i
    goalId := "g1"
    startTime := d
    endTime := d + 3600000
    duration := 3600000
    instanceId := "inst" }

/-- 2024-05-01T00:00:00Z in epoch milliseconds. -/
def may1_2024 : Int := 1714521600000

/-- One-hour sessions on 2024-05-01, 2024-05-02 and 2024-05-03. -/
def streakSessions3 : List GoalSession :=
  [sampleSession may1_2024 "s1",
   sampleSession (may1_2024 + 86400000) "s2",
   sampleSession (may1_2024 + 2 * 86400000) "s3"]

/-- The same three sessions plus a fourth on 2024-05-05 (gap on 05-04). -/
def streakSessions4 : List GoalSession :=
  streakSessions3 ++ [sampleSession (may1_2024 + 4 * 86400000) "s4"]

/-- 2024-05-20T12:00:00Z in epoch milliseconds. -/
def streakNow : Int := 1716206400000

/-- A stored achievement record whose `goalId` no longer names any goal. -/
def orphanRecord : AchievementRecord :=
  { id := "goal:g1:progress:50"
    goalId := "g1"
    unlockedAt := 1000
    seen := true }

/-- A goal with `totalHours = 0` and a large accumulated `totalTimeSpent`. -/
def zeroHoursGoal : Goal :=
  { id := "Z"
    title := "Zero"
    description := ""
    totalHours := 0
    totalTimeSpent := 99999999
    isActive := false
    isArchived := false
    startTime := none
    createdAt := 0
    lastModified := 0
    instanceId := "a" }

/-- A sample achievement record with the given id and unlock time. -/
def sampleAch (i : String) (t : Int) : AchievementRecord :=
  { id := i
    goalId := "g"
    unlockedAt := t
    seen := false }

/-- A sample snapshot with one goal, one session, one achievement and an
active session. -/
def sampleSnap : SyncData :=
  { version := 1
    instanceId := "me"
    exportedAt := 0
    goals := [sampleGoal "G" 100 "a"]
    sessions := [sampleSession 0 "s1"]
    achievements := [sampleAch "A" 500]
    activeSession := some ⟨"g1", 1000, 5000⟩ }

/-- A snapshot holding only the given achievements. -/
def snapAch (l : List AchievementRecord) : SyncData :=
  { version := 1
    instanceId := "me"
    exportedAt := 0
    goals := []
    sessions := []
    achievements := l
    activeSession := none }

/-- A snapshot holding only the given `activeSession`. -/
def snapAS (s : Option ActiveSession) : SyncData :=
  { version := 1
    instanceId := "me"
    exportedAt := 0
    goals := []
    sessions := []
    achievements := []
    activeSession := s }

/-! ## Basic facts about the `Map` model -/

namespace JsMap

variable {α : Type}

theorem get?_set_self (m : JsMap α) (k : String) (v : α) :
    (m.set k v).get? k = some v := by
  induction m with
  | nil => simp [set, get?]
  | cons p rest ih =>
    by_cases h : p.1 = k
    · simp [set, get?, h]
    · simp [set, get?, h, ih]

theorem get?_set_ne (m : JsMap α) {k k' : String} (v : α) (h : k' ≠ k) :
    (m.set k v).get? k' = m.get? k' := by
  have hkk : ¬ (k = k') := fun hk => h hk.symm
  induction m with
  | nil => simp [set, get?, hkk]
  | cons p rest ih =>
    by_cases hp : p.1 = k
    · have hp' : ¬ (p.1 = k') := by rw [hp]; exact hkk
      simp [set, get?, hp, hp', hkk]
    · by_cases hq : p.1 = k'
      · simp [set, get?, hp, hq, hkk, h]
      · simp [set, get?, hp, hq, ih]

theorem mem_set (m : JsMap α) (k : String) (v : α) :
    ∀ q ∈ m.set k v, q ∈ m ∨ q = (k, v) := by
  induction m with
  | nil => intro q hq; simp [set] at hq; exact Or.inr hq
  | cons p rest ih =>
    intro q hq
    by_cases hp : p.1 = k
    · simp only [set, if_pos hp, List.mem_cons] at hq
      rcases hq with hq | hq
      · exact Or.inr hq
      · exact Or.inl (List.mem_cons_of_mem _ hq)
    · simp only [set, if_neg hp, List.mem_cons] at hq
      rcases hq with hq | hq
      · exact Or.inl (hq ▸ List.mem_cons_self _ _)
      · rcases ih q hq with h | h
        · exact Or.inl (List.mem_cons_of_mem _ h)
        · exact Or.inr h

theorem mem_values_set (m : JsMap α) (k : String) (v : α) :
    ∀ a ∈ (m.set k v).values, a ∈ m.values ∨ a = v := by
  intro a ha
  rcases List.mem_map.mp ha with ⟨q, hq, rfl⟩
  rcases mem_set m k v q hq with h | h
  · exact Or.inl (List.mem_map_of_mem _ h)
  · exact Or.inr (by rw [h])

theorem has_set_self (m : JsMap α) (k : String) (v : α) :
    (m.set k v).has k = true := by
  simp [has, get?_set_self]

theorem has_set_of_has (m : JsMap α) {k' : String} (k : String) (v : α)
    (h : m.has k' = true) : (m.set k v).has k' = true := by
  by_cases hk : k' = k
  · subst hk; exact has_set_self m k' v
  · simpa [has, get?_set_ne m v hk] using h

theorem get?_mem (m : JsMap α) {k : String} {v : α} (h : m.get? k = some v) :
    (k, v) ∈ m := by
  induction m with
  | nil => simp [get?] at h
  | cons p rest ih =>
    by_cases hp : p.1 = k
    · simp only [get?, if_pos hp, Option.some.injEq] at h
      have hpkv : p = (k, v) := by
        obtain ⟨a, b⟩ := p
        simp only at hp h
        rw [hp, h]
      exact hpkv ▸ List.mem_cons_self _ _
    · simp only [get?, if_neg hp] at h
      exact List.mem_cons_of_mem _ (ih h)

theorem mem_values_of_get? (m : JsMap α) {k : String} {v : α}
    (h : m.get? k = some v) : v ∈ m.values :=
  List.mem_map.mpr ⟨(k, v), get?_mem m h, rfl⟩

/-- Every entry's key is the key of its value: invariant of maps built by
keying a collection by `f`. -/
def Keyed (f : α → String) (m : JsMap α) : Prop :=
  ∀ p ∈ m, p.1 = f p.2

theorem Keyed.set {f : α → String} {m : JsMap α} (h : Keyed f m) {k : String}
    {v : α} (hv : f v = k) : Keyed f (m.set k v) := by
  intro q hq
  rcases mem_set m k v q hq with hm | rfl
  · exact h q hm
  · exact hv.symm

theorem Keyed.of_get? {f : α → String} {m : JsMap α} (h : Keyed f m)
    {k : String} {v : α} (hg : m.get? k = some v) : f v = k :=
  (h (k, v) (get?_mem m hg)).symm

theorem foldl_set_mem {f : α → String} :
    ∀ (l : List α) (m : JsMap α) q,
      q ∈ l.foldl (fun m v => m.set (f v) v) m → q ∈ m ∨ (q.2 ∈ l ∧ q.1 = f q.2) := by
  intro l
  induction l with
  | nil => intro m q hq; exact Or.inl hq
  | cons a rest ih =>
    intro m q hq
    rcases ih (m.set (f a) a) q hq with h | ⟨h1, h2⟩
    · rcases mem_set m (f a) a q h with h | rfl
      · exact Or.inl h
      · exact Or.inr ⟨List.mem_cons_self _ _, rfl⟩
    · exact Or.inr ⟨List.mem_cons_of_mem _ h1, h2⟩

theorem Keyed.ofList (f : α → String) (l : List α) : Keyed f (JsMap.ofList f l) := by
  intro q hq
  rcases foldl_set_mem l [] q hq with h | ⟨_, h2⟩
  · simp at h
  · exact h2

theorem mem_values_ofList {f : α → String} {l : List α} :
    ∀ a ∈ (JsMap.ofList f l).values, a ∈ l := by
  intro a ha
  rcases List.mem_map.mp ha with ⟨q, hq, rfl⟩
  rcases foldl_set_mem l [] q hq with h | ⟨h1, _⟩
  · simp at h
  · exact h1

theorem set_eq_append {m : JsMap α} {k : String} (v : α) (h : m.has k = false) :
    m.set k v = m ++ [(k, v)] := by
  induction m with
  | nil => simp [set]
  | cons p rest ih =>
    simp only [has, get?] at h
    by_cases hp : p.1 = k
    · simp [hp] at h
    · simp only [if_neg hp] at h
      simp only [set, if_neg hp, List.cons_append, List.cons.injEq, true_and]
      exact ih (by simpa [has] using h)

theorem has_append (m₁ m₂ : JsMap α) (k : String) :
    (m₁ ++ m₂).has k = (m₁.has k || m₂.has k) := by
  induction m₁ with
  | nil => simp [has, get?]
  | cons p rest ih =>
    by_cases hp : p.1 = k
    · simp [has, get?, hp]
    · simpa [has, get?, hp] using ih

theorem foldl_set_eq_append {f : α → String} :
    ∀ (l : List α) (m : JsMap α), (∀ v ∈ l, m.has (f v) = false) →
      (l.map f).Nodup →
      l.foldl (fun m v => m.set (f v) v) m = m ++ l.map (fun v => (f v, v)) := by
  intro l
  induction l with
  | nil => intro m _ _; simp
  | cons a rest ih =>
    intro m habs hnd
    simp only [List.map_cons, List.nodup_cons, List.mem_map] at hnd
    have ha : m.has (f a) = false := habs a (List.mem_cons_self _ _)
    have hstep : m.set (f a) a = m ++ [(f a, a)] := set_eq_append a ha
    have habs' : ∀ v ∈ rest, (m ++ [(f a, a)]).has (f v) = false := by
      intro v hv
      rw [has_append]
      have h1 : m.has (f v) = false := habs v (List.mem_cons_of_mem _ hv)
      have h2 : has [(f a, a)] (f v) = false := by
        have : ¬ (f a = f v) := fun he => hnd.1 ⟨v, hv, he.symm⟩
        simp [has, get?, this]
      simp [h1, h2]
    calc (a :: rest).foldl (fun m v => m.set (f v) v) m
        = rest.foldl (fun m v => m.set (f v) v) (m.set (f a) a) := rfl
      _ = rest.foldl (fun m v => m.set (f v) v) (m ++ [(f a, a)]) := by rw [hstep]
      _ = (m ++ [(f a, a)]) ++ rest.map (fun v => (f v, v)) := ih _ habs' hnd.2
      _ = m ++ (a :: rest).map (fun v => (f v, v)) := by simp

theorem ofList_eq_of_nodup {f : α → String} {l : List α}
    (h : (l.map f).Nodup) : JsMap.ofList f l = l.map (fun v => (f v, v)) := by
  simpa using foldl_set_eq_append l [] (by intro v _; simp [has, get?]) h

theorem values_ofList_of_nodup {f : α → String} {l : List α}
    (h : (l.map f).Nodup) : (JsMap.ofList f l).values = l := by
  rw [ofList_eq_of_nodup h]
  rw [values, List.map_map]
  exact List.map_id l

theorem get?_map_pair {f : α → String} :
    ∀ (l : List α), (l.map f).Nodup → ∀ (v : α), v ∈ l →
      get? (l.map (fun v => (f v, v))) (f v) = some v := by
  intro l
  induction l with
  | nil => intro _ v hv; simp at hv
  | cons a rest ih =>
    intro hnd v hv
    simp only [List.map_cons, List.nodup_cons, List.mem_map] at hnd
    rcases List.mem_cons.mp hv with rfl | hv'
    · simp [get?]
    · have hne : ¬ (f a = f v) := fun he => hnd.1 ⟨v, hv', he.symm⟩
      simpa [get?, hne] using ih hnd.2 v hv'

theorem get?_ofList_of_nodup {f : α → String} {l : List α}
    (hnd : (l.map f).Nodup) {v : α} (hv : v ∈ l) :
    (JsMap.ofList f l).get? (f v) = some v := by
  rw [ofList_eq_of_nodup hnd]
  exact get?_map_pair l hnd v hv

end JsMap

/-! ## Facts about the goal-merge loop -/

theorem mergeGoalStep_map_cases (m : JsMap Goal) (cs : List SyncConflict) (r : Goal) :
    (mergeGoalStep m cs r).1 = m ∨ (mergeGoalStep m cs r).1 = m.set r.id r := by
  cases hg : m.get? r.id with
  | none => simp [mergeGoalStep, hg]
  | some lg =>
    by_cases h1 : lg.lastModified < r.lastModified
    · simp [mergeGoalStep, hg, h1]
    · by_cases h2 : r.lastModified < lg.lastModified
      · simp [mergeGoalStep, hg, h1, h2]
      · by_cases h3 : lg.instanceId < r.instanceId
        · simp [mergeGoalStep, hg, h1, h2, h3]
        · simp [mergeGoalStep, hg, h1, h2, h3]

theorem mergeGoalStep_conflicts (m : JsMap Goal) (cs : List SyncConflict) (r : Goal)
    (hkey : JsMap.Keyed Goal.id m) :
    (mergeGoalStep m cs r).2 = cs ∨
      ∃ c : SyncConflict, (mergeGoalStep m cs r).2 = cs ++ [c] ∧
        c.id = r.id ∧ c.type = "goal" := by
  cases hg : m.get? r.id with
  | none => simp [mergeGoalStep, hg]
  | some lg =>
    have hid : lg.id = r.id := hkey.of_get? hg
    by_cases h1 : lg.lastModified < r.lastModified
    · exact Or.inr ⟨⟨"goal", r.id, lg, r, "remote"⟩,
        by simp [mergeGoalStep, hg, h1], rfl, rfl⟩
    · by_cases h2 : r.lastModified < lg.lastModified
      · exact Or.inr ⟨⟨"goal", lg.id, lg, r, "local"⟩,
          by simp [mergeGoalStep, hg, h1, h2], hid, rfl⟩
      · refine Or.inr ⟨⟨"goal", r.id, lg, r,
          if decide (lg.instanceId < r.instanceId) then "remote" else "local"⟩,
          ?_, rfl, rfl⟩
        simp [mergeGoalStep, hg, h1, h2]

theorem mergeGoalStep_keyed (m : JsMap Goal) (cs : List SyncConflict) (r : Goal)
    (hkey : JsMap.Keyed Goal.id m) : JsMap.Keyed Goal.id (mergeGoalStep m cs r).1 := by
  rcases mergeGoalStep_map_cases m cs r with h | h
  · rw [h]; exact hkey
  · rw [h]; exact hkey.set rfl

theorem mergeGoalStep_get_ne (m : JsMap Goal) (cs : List SyncConflict) (r : Goal)
    {k : String} (h : k ≠ r.id) : (mergeGoalStep m cs r).1.get? k = m.get? k := by
  rcases mergeGoalStep_map_cases m cs r with hc | hc
  · rw [hc]
  · rw [hc]; exact JsMap.get?_set_ne m r h

/-- Processing remote goals none of which carries key `k` leaves the entry at
`k` and the conflicts mentioning `k` untouched, and preserves the key
invariant. -/
theorem mergeGoalsLoop_skip :
    ∀ (rs : List Goal) (m : JsMap Goal) (cs : List SyncConflict) (k : String),
      (∀ r ∈ rs, k ≠ r.id) → JsMap.Keyed Goal.id m →
      (mergeGoalsLoop m cs rs).1.get? k = m.get? k ∧
      (mergeGoalsLoop m cs rs).2.filter (fun c => c.id = k) =
        cs.filter (fun c => c.id = k) ∧
      JsMap.Keyed Goal.id (mergeGoalsLoop m cs rs).1 := by
  intro rs
  induction rs with
  | nil => intro m cs k _ hkey; exact ⟨rfl, rfl, hkey⟩
  | cons r rest ih =>
    intro m cs k hk hkey
    have hkr : k ≠ r.id := hk r (List.mem_cons_self _ _)
    have hkrest : ∀ x ∈ rest, k ≠ x.id := fun x hx => hk x (List.mem_cons_of_mem _ hx)
    have hkey' : JsMap.Keyed Goal.id (mergeGoalStep m cs r).1 :=
      mergeGoalStep_keyed m cs r hkey
    have hloop : mergeGoalsLoop m cs (r :: rest) =
        mergeGoalsLoop (mergeGoalStep m cs r).1 (mergeGoalStep m cs r).2 rest := rfl
    obtain ⟨ih1, ih2, ih3⟩ := ih (mergeGoalStep m cs r).1 (mergeGoalStep m cs r).2 k
      hkrest hkey'
    refine ⟨?_, ?_, hloop ▸ ih3⟩
    · rw [hloop, ih1, mergeGoalStep_get_ne m cs r hkr]
    · rw [hloop, ih2]
      rcases mergeGoalStep_conflicts m cs r hkey with hc | ⟨c, hc, hcid, _⟩
      · rw [hc]
      · rw [hc, List.filter_append]
        have : ¬ (c.id = k) := by rw [hcid]; exact fun he => hkr he.symm
        simp [this]

/-- The loop splits over list append. -/
theorem mergeGoalsLoop_append :
    ∀ (xs ys : List Goal) (m : JsMap Goal) (cs : List SyncConflict),
      mergeGoalsLoop m cs (xs ++ ys) =
        mergeGoalsLoop (mergeGoalsLoop m cs xs).1 (mergeGoalsLoop m cs xs).2 ys := by
  intro xs
  induction xs with
  | nil => intro ys m cs; rfl
  | cons x rest ih => intro ys m cs; exact ih ys _ _

theorem mergeGoalStep_eq_remote (m : JsMap Goal) (cs : List SyncConflict) {r lg : Goal}
    (hg : m.get? r.id = some lg) (h : lg.lastModified < r.lastModified) :
    mergeGoalStep m cs r =
      (m.set r.id r, cs ++ [⟨"goal", r.id, lg, r, "remote"⟩]) := by
  simp [mergeGoalStep, hg, h]

theorem mergeGoalStep_eq_local (m : JsMap Goal) (cs : List SyncConflict) {r lg : Goal}
    (hg : m.get? r.id = some lg) (h : r.lastModified < lg.lastModified) :
    mergeGoalStep m cs r = (m, cs ++ [⟨"goal", lg.id, lg, r, "local"⟩]) := by
  have h' : ¬ (lg.lastModified < r.lastModified) := by omega
  simp [mergeGoalStep, hg, h, h']

theorem mergeGoalStep_eq_tie_remote (m : JsMap Goal) (cs : List SyncConflict)
    {r lg : Goal} (hg : m.get? r.id = some lg) (he : lg.lastModified = r.lastModified)
    (h : lg.instanceId < r.instanceId) :
    mergeGoalStep m cs r =
      (m.set r.id r, cs ++ [⟨"goal", r.id, lg, r, "remote"⟩]) := by
  have h1 : ¬ (lg.lastModified < r.lastModified) := by omega
  have h2 : ¬ (r.lastModified < lg.lastModified) := by omega
  simp [mergeGoalStep, hg, h1, h2, h]

theorem mergeGoalStep_eq_tie_local (m : JsMap Goal) (cs : List SyncConflict)
    {r lg : Goal} (hg : m.get? r.id = some lg) (he : lg.lastModified = r.lastModified)
    (h : ¬ (lg.instanceId < r.instanceId)) :
    mergeGoalStep m cs r = (m, cs ++ [⟨"goal", r.id, lg, r, "local"⟩]) := by
  have h1 : ¬ (lg.lastModified < r.lastModified) := by omega
  have h2 : ¬ (r.lastModified < lg.lastModified) := by omega
  simp [mergeGoalStep, hg, h1, h2, h]

/-- Master lemma for a goal id present on both sides: whatever the single
processing step of the shared remote goal does (characterised by `hstep`),
the winner it installs survives to the output and the conflict it pushes is
the only conflict recorded for that id. -/
theorem mergeGoals_shared (L R : List Goal) {lg rg : Goal}
    (hLn : (L.map Goal.id).Nodup) (hRn : (R.map Goal.id).Nodup)
    (hlg : lg ∈ L) (hrg : rg ∈ R) (hid : lg.id = rg.id)
    (useRemote : Bool) (C : SyncConflict) (hCid : C.id = rg.id)
    (hstep : ∀ (m : JsMap Goal) (cs : List SyncConflict), m.get? rg.id = some lg →
      mergeGoalStep m cs rg = ((if useRemote then m.set rg.id rg else m), cs ++ [C])) :
    (if useRemote then rg else lg) ∈ (mergeGoals L R).1 ∧
    (mergeGoals L R).2.filter (fun c => c.id = rg.id) = [C] := by
  obtain ⟨pre, post, rfl⟩ := List.append_of_mem hrg
  have hm := List.map_append Goal.id pre (rg :: post)
  rw [hm] at hRn
  rw [List.nodup_append] at hRn
  obtain ⟨hpreN, hconsN, hdisj⟩ := hRn
  have hpre : ∀ x ∈ pre, rg.id ≠ x.id := by
    intro x hx he
    exact hdisj (he ▸ List.mem_map_of_mem Goal.id hx) (List.mem_cons_self _ _)
  have hpost : ∀ x ∈ post, rg.id ≠ x.id := by
    intro x hx he
    rw [List.map_cons, List.nodup_cons] at hconsN
    exact hconsN.1 (he ▸ List.mem_map_of_mem Goal.id hx)
  set m0 := JsMap.ofList Goal.id L with hm0
  have hkey0 : JsMap.Keyed Goal.id m0 := JsMap.Keyed.ofList Goal.id L
  have hget0 : m0.get? rg.id = some lg := by
    rw [← hid]; exact JsMap.get?_ofList_of_nodup hLn hlg
  obtain ⟨hS1, hS2, hS3⟩ := mergeGoalsLoop_skip pre m0 [] rg.id hpre hkey0
  set m1 := (mergeGoalsLoop m0 [] pre).1 with hm1
  set cs1 := (mergeGoalsLoop m0 [] pre).2 with hcs1
  have hget1 : m1.get? rg.id = some lg := by rw [hS1]; exact hget0
  have hstep1 := hstep m1 cs1 hget1
  have hkey2 : JsMap.Keyed Goal.id (mergeGoalStep m1 cs1 rg).1 :=
    mergeGoalStep_keyed m1 cs1 rg hS3
  obtain ⟨hT1, hT2, _⟩ := mergeGoalsLoop_skip post (mergeGoalStep m1 cs1 rg).1
    (mergeGoalStep m1 cs1 rg).2 rg.id hpost hkey2
  have hrun : mergeGoalsLoop m0 [] (pre ++ rg :: post) =
      mergeGoalsLoop (mergeGoalStep m1 cs1 rg).1 (mergeGoalStep m1 cs1 rg).2 post := by
    rw [mergeGoalsLoop_append]
    rfl
  have hGoals : (mergeGoals L (pre ++ rg :: post)).1 =
      (mergeGoalsLoop (mergeGoalStep m1 cs1 rg).1 (mergeGoalStep m1 cs1 rg).2 post).1.values := by
    show (mergeGoalsLoop m0 [] (pre ++ rg :: post)).1.values = _
    rw [hrun]
  have hConf : (mergeGoals L (pre ++ rg :: post)).2 =
      (mergeGoalsLoop (mergeGoalStep m1 cs1 rg).1 (mergeGoalStep m1 cs1 rg).2 post).2 := by
    show (mergeGoalsLoop m0 [] (pre ++ rg :: post)).2 = _
    rw [hrun]
  constructor
  · rw [hGoals]
    apply JsMap.mem_values_of_get? _ (k := rg.id)
    rw [hT1, hstep1]
    cases useRemote with
    | true => simpa using JsMap.get?_set_self m1 rg.id rg
    | false => simpa using hget1
  · rw [hConf, hT2, hstep1]
    have hfilter1 : cs1.filter (fun c => c.id = rg.id) = [] := by
      rw [hS2]; rfl
    simp only [List.filter_append, hfilter1, List.nil_append]
    simp [hCid]

/-! ## Unfolding the components of `merge` -/

theorem merge_goals_def (L R : SyncData) :
    (merge L R).goals = (mergeGoals L.goals R.goals).1 := rfl

theorem merge_conflicts_def (L R : SyncData) :
    (merge L R).conflicts = (mergeGoals L.goals R.goals).2 := rfl

theorem merge_sessions_def (L R : SyncData) :
    (merge L R).sessions = mergeSessions L.sessions R.sessions := rfl

theorem merge_achievements_def (L R : SyncData) :
    (merge L R).achievements = mergeAchievements L.achievements R.achievements := rfl

theorem merge_activeSession_def (L R : SyncData) :
    (merge L R).activeSession = mergeActiveSession L.activeSession R.activeSession := rfl

/-! ## C1 and C2: goal Last-Write-Wins and tie-break -/

/-- C1. For snapshots whose goal ids are unique per side, a goal id present on
both sides with strictly greater remote `lastModified` makes `merge` keep the
remote version, and the conflict log holds exactly one entry for that id, of
type `goal`, resolved `remote`; symmetrically, a strictly smaller remote
`lastModified` keeps the local version with resolution `local`. -/
theorem goal_lww_correct (L R : SyncData) (lg rg : Goal)
    (hLn : (L.goals.map Goal.id).Nodup) (hRn : (R.goals.map Goal.id).Nodup)
    (hlg : lg ∈ L.goals) (hrg : rg ∈ R.goals) (hid : lg.id = rg.id) :
    (lg.lastModified < rg.lastModified →
      rg ∈ (merge L R).goals ∧
      (merge L R).conflicts.filter (fun c => c.id = rg.id) =
        [⟨"goal", rg.id, lg, rg, "remote"⟩]) ∧
    (rg.lastModified < lg.lastModified →
      lg ∈ (merge L R).goals ∧
      (merge L R).conflicts.filter (fun c => c.id = rg.id) =
        [⟨"goal", lg.id, lg, rg, "local"⟩]) := by
  rw [merge_goals_def, merge_conflicts_def]
  constructor
  · intro h
    exact mergeGoals_shared L.goals R.goals hLn hRn hlg hrg hid true
      ⟨"goal", rg.id, lg, rg, "remote"⟩ rfl
      (fun m cs hg => mergeGoalStep_eq_remote m cs hg h)
  · intro h
    exact mergeGoals_shared L.goals R.goals hLn hRn hlg hrg hid false
      ⟨"goal", lg.id, lg, rg, "local"⟩ hid
      (fun m cs hg => mergeGoalStep_eq_local m cs hg h)

/-- Witness for C1 at concrete snapshots: local goal `G` modified at 100,
remote copy modified at 200 with a different `instanceId`; the remote copy
wins and the single recorded conflict is resolved `remote`. Symmetrically on
swapped snapshots the newer copy still wins with resolution `local`. -/
theorem goal_lww_correct_witness :
    (sampleGoal "G" 200 "b" ∈
      (merge (snapWith [sampleGoal "G" 100 "a"])
        (snapWith [sampleGoal "G" 200 "b"])).goals ∧
    (merge (snapWith [sampleGoal "G" 100 "a"])
        (snapWith [sampleGoal "G" 200 "b"])).conflicts.filter
        (fun c => c.id = "G") =
      [⟨"goal", "G", sampleGoal "G" 100 "a", sampleGoal "G" 200 "b", "remote"⟩]) ∧
    (sampleGoal "G" 200 "b" ∈
      (merge (snapWith [sampleGoal "G" 200 "b"])
        (snapWith [sampleGoal "G" 100 "a"])).goals ∧
    (merge (snapWith [sampleGoal "G" 200 "b"])
        (snapWith [sampleGoal "G" 100 "a"])).conflicts.filter
        (fun c => c.id = "G") =
      [⟨"goal", "G", sampleGoal "G" 200 "b", sampleGoal "G" 100 "a", "local"⟩]) :=
  ⟨(goal_lww_correct (snapWith [sampleGoal "G" 100 "a"])
      (snapWith [sampleGoal "G" 200 "b"])
      (sampleGoal "G" 100 "a") (sampleGoal "G" 200 "b")
      (by decide) (by decide) (List.mem_singleton.mpr rfl) (List.mem_singleton.mpr rfl)
      rfl).1 (by decide),
   (goal_lww_correct (snapWith [sampleGoal "G" 200 "b"])
      (snapWith [sampleGoal "G" 100 "a"])
      (sampleGoal "G" 200 "b") (sampleGoal "G" 100 "a")
      (by decide) (by decide) (List.mem_singleton.mpr rfl) (List.mem_singleton.mpr rfl)
      rfl).2 (by decide)⟩

/-- `"a"` precedes `"b"` in the code-unit order JavaScript uses on strings. -/
theorem str_lt_ab : ("a" : String) < "b" :=
  String.lt_iff_toList_lt.mpr (by decide)

/-- C2. On equal `lastModified`, the tie is broken by lexicographic comparison
of the two `instanceId` strings: the side with the lexicographically greater
`instanceId` is kept, the single conflict entry for the id names that side as
its resolution, and swapping the two `instanceId` relations flips the winner. -/
theorem tie_break_deterministic (L R : SyncData) (lg rg : Goal)
    (hLn : (L.goals.map Goal.id).Nodup) (hRn : (R.goals.map Goal.id).Nodup)
    (hlg : lg ∈ L.goals) (hrg : rg ∈ R.goals) (hid : lg.id = rg.id)
    (heq : lg.lastModified = rg.lastModified) :
    (lg.instanceId < rg.instanceId →
      rg ∈ (merge L R).goals ∧
      (merge L R).conflicts.filter (fun c => c.id = rg.id) =
        [⟨"goal", rg.id, lg, rg, "remote"⟩]) ∧
    (rg.instanceId < lg.instanceId →
      lg ∈ (merge L R).goals ∧
      (merge L R).conflicts.filter (fun c => c.id = rg.id) =
        [⟨"goal", rg.id, lg, rg, "local"⟩]) := by
  rw [merge_goals_def, merge_conflicts_def]
  constructor
  · intro h
    exact mergeGoals_shared L.goals R.goals hLn hRn hlg hrg hid true
      ⟨"goal", rg.id, lg, rg, "remote"⟩ rfl
      (fun m cs hg => mergeGoalStep_eq_tie_remote m cs hg heq h)
  · intro h
    exact mergeGoals_shared L.goals R.goals hLn hRn hlg hrg hid false
      ⟨"goal", rg.id, lg, rg, "local"⟩ rfl
      (fun m cs hg => mergeGoalStep_eq_tie_local m cs hg heq (lt_asymm h))

/-- Witness for C2 at concrete snapshots: equal `lastModified` (100), local
`instanceId` `"a"` against remote `"b"` makes the remote copy win; with the
`instanceId` values swapped the local copy wins. -/
theorem tie_break_deterministic_witness :
    (sampleGoal "G" 100 "b" ∈
      (merge (snapWith [sampleGoal "G" 100 "a"])
        (snapWith [sampleGoal "G" 100 "b"])).goals) ∧
    (sampleGoal "G" 100 "b" ∈
      (merge (snapWith [sampleGoal "G" 100 "b"])
        (snapWith [sampleGoal "G" 100 "a"])).goals) :=
  ⟨((tie_break_deterministic (snapWith [sampleGoal "G" 100 "a"])
      (snapWith [sampleGoal "G" 100 "b"])
      (sampleGoal "G" 100 "a") (sampleGoal "G" 100 "b")
      (by decide) (by decide) (List.mem_singleton.mpr rfl) (List.mem_singleton.mpr rfl)
      rfl rfl).1 str_lt_ab).1,
   ((tie_break_deterministic (snapWith [sampleGoal "G" 100 "b"])
      (snapWith [sampleGoal "G" 100 "a"])
      (sampleGoal "G" 100 "b") (sampleGoal "G" 100 "a")
      (by decide) (by decide) (List.mem_singleton.mpr rfl) (List.mem_singleton.mpr rfl)
      rfl rfl).2 str_lt_ab).1⟩

/-! ## Facts about the achievement-merge loop -/

theorem mergeAchievementStep_cases (m : JsMap AchievementRecord) (a : AchievementRecord) :
    mergeAchievementStep m a = m ∨ mergeAchievementStep m a = m.set a.id a := by
  cases hg : m.get? a.id with
  | none => simp [mergeAchievementStep, hg]
  | some ex =>
    by_cases h : a.unlockedAt < ex.unlockedAt
    · simp [mergeAchievementStep, hg, h]
    · simp [mergeAchievementStep, hg, h]

theorem mergeAchievementStep_get_ne (m : JsMap AchievementRecord)
    (a : AchievementRecord) {k : String} (h : k ≠ a.id) :
    (mergeAchievementStep m a).get? k = m.get? k := by
  rcases mergeAchievementStep_cases m a with hc | hc
  · rw [hc]
  · rw [hc]; exact JsMap.get?_set_ne m a h

theorem mergeAchievementStep_keyed {m : JsMap AchievementRecord}
    (hkey : JsMap.Keyed AchievementRecord.id m) (a : AchievementRecord) :
    JsMap.Keyed AchievementRecord.id (mergeAchievementStep m a) := by
  rcases mergeAchievementStep_cases m a with hc | hc
  · rw [hc]; exact hkey
  · rw [hc]; exact hkey.set rfl

theorem mergeAchievementStep_has_self (m : JsMap AchievementRecord)
    (a : AchievementRecord) : (mergeAchievementStep m a).has a.id = true := by
  cases hg : m.get? a.id with
  | none => simp [mergeAchievementStep, hg, JsMap.has_set_self]
  | some ex =>
    by_cases h : a.unlockedAt < ex.unlockedAt
    · simp [mergeAchievementStep, hg, h, JsMap.has_set_self]
    · simp [mergeAchievementStep, hg, h, JsMap.has]

theorem mergeAchievementStep_has_mono (m : JsMap AchievementRecord)
    (a : AchievementRecord) {k : String} (h : m.has k = true) :
    (mergeAchievementStep m a).has k = true := by
  rcases mergeAchievementStep_cases m a with hc | hc
  · rw [hc]; exact h
  · rw [hc]; exact JsMap.has_set_of_has m a.id a h

theorem mergeAchievementsLoop_get_ne :
    ∀ (rs : List AchievementRecord) (m : JsMap AchievementRecord) (k : String),
      (∀ x ∈ rs, k ≠ x.id) →
      (mergeAchievementsLoop m rs).get? k = m.get? k := by
  intro rs
  induction rs with
  | nil => intro m k _; rfl
  | cons a rest ih =>
    intro m k hk
    show (mergeAchievementsLoop (mergeAchievementStep m a) rest).get? k = m.get? k
    rw [ih _ k (fun x hx => hk x (List.mem_cons_of_mem _ hx))]
    exact mergeAchievementStep_get_ne m a (hk a (List.mem_cons_self _ _))

theorem mergeAchievementsLoop_keyed :
    ∀ (rs : List AchievementRecord) (m : JsMap AchievementRecord),
      JsMap.Keyed AchievementRecord.id m →
      JsMap.Keyed AchievementRecord.id (mergeAchievementsLoop m rs) := by
  intro rs
  induction rs with
  | nil => intro m h; exact h
  | cons a rest ih => intro m h; exact ih _ (mergeAchievementStep_keyed h a)

theorem mergeAchievementsLoop_has :
    ∀ (rs : List AchievementRecord) (m : JsMap AchievementRecord) (k : String),
      (m.has k = true ∨ ∃ x ∈ rs, x.id = k) →
      (mergeAchievementsLoop m rs).has k = true := by
  intro rs
  induction rs with
  | nil =>
    intro m k h
    rcases h with h | ⟨x, hx, _⟩
    · exact h
    · simp at hx
  | cons a rest ih =>
    intro m k h
    apply ih (mergeAchievementStep m a) k
    rcases h with h | ⟨x, hx, hxk⟩
    · exact Or.inl (mergeAchievementStep_has_mono m a h)
    · rcases List.mem_cons.mp hx with rfl | hx'
      · exact Or.inl (hxk ▸ mergeAchievementStep_has_self m x)
      · exact Or.inr ⟨x, hx', hxk⟩

theorem mergeAchievementsLoop_values :
    ∀ (rs : List AchievementRecord) (m : JsMap AchievementRecord)
      (x : AchievementRecord),
      x ∈ (mergeAchievementsLoop m rs).values → x ∈ m.values ∨ x ∈ rs := by
  intro rs
  induction rs with
  | nil => intro m x h; exact Or.inl h
  | cons a rest ih =>
    intro m x h
    rcases ih (mergeAchievementStep m a) x h with h' | h'
    · rcases mergeAchievementStep_cases m a with hc | hc
      · rw [hc] at h'; exact Or.inl h'
      · rw [hc] at h'
        rcases JsMap.mem_values_set m a.id a x h' with h'' | rfl
        · exact Or.inl h''
        · exact Or.inr (List.mem_cons_self _ _)
    · exact Or.inr (List.mem_cons_of_mem _ h')

theorem mergeAchievementsLoop_append :
    ∀ (xs ys : List AchievementRecord) (m : JsMap AchievementRecord),
      mergeAchievementsLoop m (xs ++ ys) =
        mergeAchievementsLoop (mergeAchievementsLoop m xs) ys := by
  intro xs
  induction xs with
  | nil => intro ys m; rfl
  | cons x rest ih => intro ys m; exact ih ys _

theorem mergeAchievementStep_eq_earlier (m : JsMap AchievementRecord)
    {a ex : AchievementRecord} (hget : m.get? a.id = some ex)
    (h : a.unlockedAt < ex.unlockedAt) :
    mergeAchievementStep m a = m.set a.id a := by
  simp [mergeAchievementStep, hget, h]

theorem mergeAchievementStep_eq_later (m : JsMap AchievementRecord)
    {a ex : AchievementRecord} (hget : m.get? a.id = some ex)
    (h : ¬ a.unlockedAt < ex.unlockedAt) :
    mergeAchievementStep m a = m := by
  simp [mergeAchievementStep, hget, h]

/-- Master lemma for an achievement id present on both sides: the record the
processing step of the shared remote record keeps survives to the output. -/
theorem mergeAchievements_shared (L R : List AchievementRecord)
    {la ra : AchievementRecord}
    (hLn : (L.map AchievementRecord.id).Nodup)
    (hRn : (R.map AchievementRecord.id).Nodup)
    (hla : la ∈ L) (hra : ra ∈ R) (hid : la.id = ra.id) (useRemote : Bool)
    (hstep : ∀ m : JsMap AchievementRecord, m.get? ra.id = some la →
      mergeAchievementStep m ra = (if useRemote then m.set ra.id ra else m)) :
    (if useRemote then ra else la) ∈ mergeAchievements L R := by
  obtain ⟨pre, post, rfl⟩ := List.append_of_mem hra
  have hm := List.map_append AchievementRecord.id pre (ra :: post)
  rw [hm] at hRn
  rw [List.nodup_append] at hRn
  obtain ⟨_, hconsN, hdisj⟩ := hRn
  have hpre : ∀ x ∈ pre, ra.id ≠ x.id := by
    intro x hx he
    exact hdisj (he ▸ List.mem_map_of_mem AchievementRecord.id hx)
      (List.mem_cons_self _ _)
  have hpost : ∀ x ∈ post, ra.id ≠ x.id := by
    intro x hx he
    rw [List.map_cons, List.nodup_cons] at hconsN
    exact hconsN.1 (he ▸ List.mem_map_of_mem AchievementRecord.id hx)
  set m0 := JsMap.ofList AchievementRecord.id L with hm0
  have hget0 : m0.get? ra.id = some la := by
    rw [← hid]; exact JsMap.get?_ofList_of_nodup hLn hla
  have hrun : mergeAchievementsLoop m0 (pre ++ ra :: post) =
      mergeAchievementsLoop
        (mergeAchievementStep (mergeAchievementsLoop m0 pre) ra) post := by
    rw [mergeAchievementsLoop_append]
    rfl
  have hget1 : (mergeAchievementsLoop m0 pre).get? ra.id = some la := by
    rw [mergeAchievementsLoop_get_ne pre m0 ra.id hpre]
    exact hget0
  show (if useRemote then ra else la) ∈ (mergeAchievementsLoop m0 (pre ++ ra :: post)).values
  rw [hrun]
  apply JsMap.mem_values_of_get? _ (k := ra.id)
  rw [mergeAchievementsLoop_get_ne post _ ra.id hpost, hstep _ hget1]
  cases useRemote with
  | true => simpa using JsMap.get?_set_self (mergeAchievementsLoop m0 pre) ra.id ra
  | false => simpa using hget1

/-- All conflicts the goal loop accumulates have type `goal`. -/
theorem mergeGoalsLoop_conflict_types :
    ∀ (rs : List Goal) (m : JsMap Goal) (cs : List SyncConflict),
      JsMap.Keyed Goal.id m → (∀ c ∈ cs, c.type = "goal") →
      ∀ c ∈ (mergeGoalsLoop m cs rs).2, c.type = "goal" := by
  intro rs
  induction rs with
  | nil => intro m cs _ hcs; exact hcs
  | cons r rest ih =>
    intro m cs hkey hcs
    apply ih _ _ (mergeGoalStep_keyed m cs r hkey)
    rcases mergeGoalStep_conflicts m cs r hkey with hc | ⟨c0, hc, _, hct⟩
    · rw [hc]; exact hcs
    · rw [hc]
      intro c hcmem
      rcases List.mem_append.mp hcmem with h | h
      · exact hcs c h
      · rcases List.mem_singleton.mp h with rfl
        exact hct

/-- Every conflict `merge` reports is a goal conflict. -/
theorem merge_conflict_types (L R : SyncData) :
    ∀ c ∈ (merge L R).conflicts, c.type = "goal" := by
  rw [merge_conflicts_def]
  exact mergeGoalsLoop_conflict_types R.goals (JsMap.ofList Goal.id L.goals) []
    (JsMap.Keyed.ofList Goal.id L.goals) (by intro c hc; simp at hc)

/-! ## C8: achievements merge is an id-keyed union, earlier unlock wins -/

/-- C8. Merged achievements form the union keyed by id: every output record
comes from one of the two sides, every id present on either side is present
in the output, and when the same id occurs on both sides with differing
`unlockedAt` the record with the strictly earlier `unlockedAt` is kept.
No conflict entry is recorded for achievements: every conflict in the merge
output has type `goal`. -/
theorem achievements_merge_union (L R : SyncData) (la ra : AchievementRecord)
    (hLn : (L.achievements.map AchievementRecord.id).Nodup)
    (hRn : (R.achievements.map AchievementRecord.id).Nodup)
    (hla : la ∈ L.achievements) (hra : ra ∈ R.achievements) (hid : la.id = ra.id) :
    (ra.unlockedAt < la.unlockedAt → ra ∈ (merge L R).achievements) ∧
    (la.unlockedAt < ra.unlockedAt → la ∈ (merge L R).achievements) ∧
    (∀ a ∈ (merge L R).achievements, a ∈ L.achievements ∨ a ∈ R.achievements) ∧
    (∀ x : AchievementRecord, x ∈ L.achievements ∨ x ∈ R.achievements →
      ∃ b ∈ (merge L R).achievements, b.id = x.id) ∧
    (∀ c ∈ (merge L R).conflicts, c.type = "goal") := by
  refine ⟨?_, ?_, ?_, ?_, merge_conflict_types L R⟩
  · intro h
    rw [merge_achievements_def]
    exact mergeAchievements_shared L.achievements R.achievements hLn hRn hla hra hid
      true (fun m hg => mergeAchievementStep_eq_earlier m hg h)
  · intro h
    rw [merge_achievements_def]
    exact mergeAchievements_shared L.achievements R.achievements hLn hRn hla hra hid
      false (fun m hg => mergeAchievementStep_eq_later m hg (by omega))
  · intro a ha
    rw [merge_achievements_def] at ha
    rcases mergeAchievementsLoop_values R.achievements _ a ha with h | h
    · exact Or.inl (JsMap.mem_values_ofList _ h)
    · exact Or.inr h
  · intro x hx
    rw [merge_achievements_def]
    have hhas : (mergeAchievementsLoop
        (JsMap.ofList AchievementRecord.id L.achievements) R.achievements).has x.id
        = true := by
      apply mergeAchievementsLoop_has
      rcases hx with h | h
      · exact Or.inl (by
          simp [JsMap.has, JsMap.get?_ofList_of_nodup hLn h])
      · exact Or.inr ⟨x, h, rfl⟩
    rcases Option.isSome_iff_exists.mp hhas with ⟨b, hb⟩
    have hkey : JsMap.Keyed AchievementRecord.id
        (mergeAchievementsLoop (JsMap.ofList AchievementRecord.id L.achievements)
          R.achievements) :=
      mergeAchievementsLoop_keyed R.achievements _
        (JsMap.Keyed.ofList AchievementRecord.id L.achievements)
    exact ⟨b, JsMap.mem_values_of_get? _ hb, hkey.of_get? hb⟩

/-- Witness for C8: the same achievement id unlocked at 500 locally and at
300 remotely; the merge keeps the remote record (earlier unlock). -/
theorem achievements_merge_union_witness :
    sampleAch "A" 300 ∈
      (merge (snapAch [sampleAch "A" 500]) (snapAch [sampleAch "A" 300])).achievements :=
  (achievements_merge_union (snapAch [sampleAch "A" 500])
    (snapAch [sampleAch "A" 300]) (sampleAch "A" 500) (sampleAch "A" 300)
    (by decide) (by decide) (List.mem_singleton.mpr rfl) (List.mem_singleton.mpr rfl)
    rfl).1 (by decide)

/-! ## C9: active-session singleton resolution -/

/-- C9. The merged `activeSession` is `null` when both sides are `null`, the
non-`null` side when exactly one side is `null`, and, when both are present,
the one with the strictly greater `lastUpdated`. -/
theorem active_session_merge (L R : SyncData) :
    (L.activeSession = none → R.activeSession = none →
      (merge L R).activeSession = none) ∧
    (∀ r, L.activeSession = none → R.activeSession = some r →
      (merge L R).activeSession = some r) ∧
    (∀ l, L.activeSession = some l → R.activeSession = none →
      (merge L R).activeSession = some l) ∧
    (∀ l r, L.activeSession = some l → R.activeSession = some r →
      l.lastUpdated < r.lastUpdated → (merge L R).activeSession = some r) ∧
    (∀ l r, L.activeSession = some l → R.activeSession = some r →
      r.lastUpdated < l.lastUpdated → (merge L R).activeSession = some l) := by
  refine ⟨?_, ?_, ?_, ?_, ?_⟩
  · intro h1 h2
    rw [merge_activeSession_def, h1, h2]
    rfl
  · intro r h1 h2
    rw [merge_activeSession_def, h1, h2]
    rfl
  · intro l h1 h2
    rw [merge_activeSession_def, h1, h2]
    rfl
  · intro l r h1 h2 hlt
    rw [merge_activeSession_def, h1, h2]
    simp [mergeActiveSession, hlt]
  · intro l r h1 h2 hlt
    have : ¬ (l.lastUpdated < r.lastUpdated) := by omega
    rw [merge_activeSession_def, h1, h2]
    simp [mergeActiveSession, this]

/-- Witness for C9 at the spec's scenario: local `activeSession` null, remote
`(goalId g1, startTime 1000, lastUpdated 5000)`; the merge keeps the remote
value. -/
theorem active_session_merge_witness :
    (merge (snapAS none) (snapAS (some ⟨"g1", 1000, 5000⟩))).activeSession =
      some ⟨"g1", 1000, 5000⟩ :=
  (active_session_merge (snapAS none)
    (snapAS (some ⟨"g1", 1000, 5000⟩))).2.1 ⟨"g1", 1000, 5000⟩ rfl rfl

/-! ## Facts about field lookup in untrusted values -/

namespace JSValue

theorem lookup_setField_self (fs : List (String × JSValue)) (k : String) (v : JSValue) :
    lookup (setField fs k v) k = some v := by
  induction fs with
  | nil => simp [setField, lookup]
  | cons p rest ih =>
    by_cases hp : p.1 = k
    · simp [setField, lookup, hp]
    · simp [setField, lookup, hp, ih]

theorem lookup_setField_ne (fs : List (String × JSValue)) {k k' : String}
    (v : JSValue) (h : k' ≠ k) : lookup (setField fs k v) k' = lookup fs k' := by
  have hkk : ¬ (k = k') := fun hk => h hk.symm
  induction fs with
  | nil => simp [setField, lookup, hkk]
  | cons p rest ih =>
    by_cases hp : p.1 = k
    · have hp' : ¬ (p.1 = k') := by rw [hp]; exact hkk
      simp [setField, lookup, hp, hp', hkk]
    · by_cases hq : p.1 = k'
      · simp [setField, lookup, hp, hq, hkk, h]
      · simp [setField, lookup, hp, hq, ih]

theorem lookup_eraseField_ne (fs : List (String × JSValue)) {k k' : String}
    (h : k' ≠ k) : lookup (eraseField fs k) k' = lookup fs k' := by
  have hkk : ¬ (k = k') := fun hk => h hk.symm
  induction fs with
  | nil => rfl
  | cons p rest ih =>
    by_cases hp : p.1 = k
    · have hp' : ¬ (p.1 = k') := by rw [hp]; exact hkk
      simp [eraseField, lookup, hp, hp', hkk, h, ih]
    · by_cases hq : p.1 = k'
      · simp [eraseField, lookup, hp, hq, hkk, h]
      · simp [eraseField, lookup, hp, hq, hkk, h, ih]

theorem getField_setField_ne (fs : List (String × JSValue)) {k k' : String}
    (v : JSValue) (h : k' ≠ k) :
    getField (.obj (setField fs k v)) k' = getField (.obj fs) k' := by
  simp [getField, lookup_setField_ne fs v h]

theorem getField_eraseField_ne (fs : List (String × JSValue)) {k k' : String}
    (h : k' ≠ k) : getField (.obj (eraseField fs k)) k' = getField (.obj fs) k' := by
  simp [getField, lookup_eraseField_ne fs h]

theorem truthy_obj (fs : List (String × JSValue)) : (obj fs).truthy = true := rfl

theorem typeof_obj (fs : List (String × JSValue)) : (obj fs).typeof = "object" := rfl

end JSValue

/-- The validator's verdict on two objects agrees as soon as the individual
field checks agree: `version`, `instanceId`, `exportedAt` by `typeof`, the
three collections by `Array.isArray`. -/
theorem validateSyncData_congr (fs1 fs2 : List (String × JSValue))
    (h1 : JSValue.typeof (JSValue.getField (.obj fs1) "version") =
      JSValue.typeof (JSValue.getField (.obj fs2) "version"))
    (h2 : JSValue.typeof (JSValue.getField (.obj fs1) "instanceId") =
      JSValue.typeof (JSValue.getField (.obj fs2) "instanceId"))
    (h3 : JSValue.typeof (JSValue.getField (.obj fs1) "exportedAt") =
      JSValue.typeof (JSValue.getField (.obj fs2) "exportedAt"))
    (h4 : JSValue.isArray (JSValue.getField (.obj fs1) "goals") =
      JSValue.isArray (JSValue.getField (.obj fs2) "goals"))
    (h5 : JSValue.isArray (JSValue.getField (.obj fs1) "sessions") =
      JSValue.isArray (JSValue.getField (.obj fs2) "sessions"))
    (h6 : JSValue.isArray (JSValue.getField (.obj fs1) "achievements") =
      JSValue.isArray (JSValue.getField (.obj fs2) "achievements")) :
    validateSyncData (.obj fs1) = validateSyncData (.obj fs2) := by
  simp only [validateSyncData, JSValue.truthy_obj, JSValue.typeof_obj,
    h1, h2, h3, h4, h5, h6]

/-! ## C10: the validator never looks at `activeSession` -/

/-- C10. The validator's verdict is unchanged by setting the `activeSession`
field to an arbitrary (possibly malformed) value, and by removing the field
entirely: a structurally invalid `activeSession` alone never causes
rejection. -/
theorem validate_ignores_activeSession (fs : List (String × JSValue)) (v : JSValue) :
    validateSyncData (.obj (JSValue.setField fs "activeSession" v)) =
      validateSyncData (.obj fs) ∧
    validateSyncData (.obj (JSValue.eraseField fs "activeSession")) =
      validateSyncData (.obj fs) := by
  constructor
  · exact validateSyncData_congr _ _
      (congrArg _ (JSValue.getField_setField_ne fs v (by decide)))
      (congrArg _ (JSValue.getField_setField_ne fs v (by decide)))
      (congrArg _ (JSValue.getField_setField_ne fs v (by decide)))
      (congrArg _ (JSValue.getField_setField_ne fs v (by decide)))
      (congrArg _ (JSValue.getField_setField_ne fs v (by decide)))
      (congrArg _ (JSValue.getField_setField_ne fs v (by decide)))
  · exact validateSyncData_congr _ _
      (congrArg _ (JSValue.getField_eraseField_ne fs (by decide)))
      (congrArg _ (JSValue.getField_eraseField_ne fs (by decide)))
      (congrArg _ (JSValue.getField_eraseField_ne fs (by decide)))
      (congrArg _ (JSValue.getField_eraseField_ne fs (by decide)))
      (congrArg _ (JSValue.getField_eraseField_ne fs (by decide)))
      (congrArg _ (JSValue.getField_eraseField_ne fs (by decide)))

/-! ## C4: no upper bound on the snapshot version -/

/-- C4 fails on the code: a snapshot whose `version` (2) is strictly greater
than the consumer's supported schema version (1) still passes
`validateSyncData`, so the sync path goes on to merge it; the validator only
checks that `version` is a number. -/
theorem version_gate_counterexample :
    (1 : ℚ) < 2 ∧
    validateSyncData (.obj [("version", .num 2), ("instanceId", .str "peer"),
      ("exportedAt", .num 0), ("goals", .arr []), ("sessions", .arr []),
      ("achievements", .arr [])]) = true :=
  ⟨by decide, rfl⟩

/-- C4 amended: the validation gate is independent of the numeric value of
`version` — any snapshot whose `version` field holds a number (greater than,
equal to, or lower than the supported version 1) gets the same verdict, so
no version-based rejection happens before merge. -/
theorem validate_accepts_any_numeric_version (fs : List (String × JSValue)) (x y : ℚ) :
    validateSyncData (.obj (JSValue.setField fs "version" (.num x))) =
      validateSyncData (.obj (JSValue.setField fs "version" (.num y))) := by
  apply validateSyncData_congr
  · have hx := JSValue.lookup_setField_self fs "version" (.num x)
    have hy := JSValue.lookup_setField_self fs "version" (.num y)
    simp [JSValue.getField, hx, hy, JSValue.typeof]
  · exact congrArg _ ((JSValue.getField_setField_ne fs (.num x) (by decide)).trans
      (JSValue.getField_setField_ne fs (.num y) (by decide)).symm)
  · exact congrArg _ ((JSValue.getField_setField_ne fs (.num x) (by decide)).trans
      (JSValue.getField_setField_ne fs (.num y) (by decide)).symm)
  · exact congrArg _ ((JSValue.getField_setField_ne fs (.num x) (by decide)).trans
      (JSValue.getField_setField_ne fs (.num y) (by decide)).symm)
  · exact congrArg _ ((JSValue.getField_setField_ne fs (.num x) (by decide)).trans
      (JSValue.getField_setField_ne fs (.num y) (by decide)).symm)
  · exact congrArg _ ((JSValue.getField_setField_ne fs (.num x) (by decide)).trans
      (JSValue.getField_setField_ne fs (.num y) (by decide)).symm)

/-! ## C6: daily-streak scenario -/

/-- C6. One-hour sessions on 2024-05-01 through 2024-05-03 give a computed
streak of 3; adding a fourth session on 2024-05-05 (with no session on
05-04) yields a streak that does not exceed 3. -/
theorem streak_scenario :
    calculateDailyStreak streakSessions3 streakNow = 3 ∧
    calculateDailyStreak streakSessions4 streakNow ≤ 3 := by decide

/-! ## C3 and C7: achievement evaluation -/

/-- C3 fails on the code: `evaluateAchievements` filters the stored records
through `validGoalIds` (`app.ts` line 942), so a previously unlocked record
whose `goalId` no longer names an existing goal is removed from the record
set by the very next evaluation call instead of being retained. -/
theorem achievement_monotonicity_code_bug :
    orphanRecord ∈ [orphanRecord] ∧
    evaluateAchievements [] [orphanRecord] 2000 = [] ∧
    orphanRecord ∉ evaluateAchievements [] [orphanRecord] 2000 := by decide

/-- Every record produced by the evaluation either was already stored or
names a goal whose target duration converts to a positive number of
milliseconds. -/
theorem evalAchievements_mem (goals : List Goal) (achievements : List AchievementRecord)
    (now : Int) :
    ∀ r ∈ evaluateAchievements goals achievements now,
      r ∈ achievements ∨
        ∃ g ∈ goals, g.id = r.goalId ∧ 0 < hoursToMilliseconds g.totalHours := by
  have hstep : ∀ (st : EvalState) (d : AchievementDefinition),
      (∀ r ∈ st.records, r ∈ achievements ∨
        ∃ g ∈ goals, g.id = r.goalId ∧ 0 < hoursToMilliseconds g.totalHours) →
      ∀ r ∈ (evalAchievementStep (JsMap.ofList Goal.id goals) now st d).records,
        r ∈ achievements ∨
          ∃ g ∈ goals, g.id = r.goalId ∧ 0 < hoursToMilliseconds g.totalHours := by
    intro st d hrec r hr
    revert hr
    unfold evalAchievementStep
    cases hg : (JsMap.ofList Goal.id goals).get? d.goalId with
    | none => exact hrec r
    | some goal =>
      by_cases hpos : 0 < hoursToMilliseconds goal.totalHours
      · have hmem : goal ∈ goals :=
          JsMap.mem_values_ofList _ (JsMap.mem_values_of_get? _ hg)
        by_cases hcond : d.threshold / 100 ≤ goal.totalTimeSpent /
            hoursToMilliseconds goal.totalHours ∧
            ¬ (st.recordMap.has d.id) = true
        · simp only [hpos, not_true_eq_false, if_false, hcond, if_true]
          intro hr
          rcases List.mem_append.mp hr with h | h
          · exact hrec r h
          · rcases List.mem_singleton.mp h with rfl
            exact Or.inr ⟨goal, hmem, rfl, hpos⟩
        · simp only [hpos, not_true_eq_false, if_false, hcond]
          exact hrec r
      · simp only [hpos, not_false_eq_true, if_true]
        exact hrec r
  have hfold : ∀ (defs : List AchievementDefinition) (st : EvalState),
      (∀ r ∈ st.records, r ∈ achievements ∨
        ∃ g ∈ goals, g.id = r.goalId ∧ 0 < hoursToMilliseconds g.totalHours) →
      ∀ r ∈ (defs.foldl (evalAchievementStep (JsMap.ofList Goal.id goals) now) st).records,
        r ∈ achievements ∨
          ∃ g ∈ goals, g.id = r.goalId ∧ 0 < hoursToMilliseconds g.totalHours := by
    intro defs
    induction defs with
    | nil => intro st h; exact h
    | cons d rest ih => intro st h; exact ih _ (hstep st d h)
  intro r hr
  refine hfold (buildAchievementDefinitions goals)
    ⟨(achievements.filter (fun r => (goals.map Goal.id).contains r.goalId)),
     JsMap.ofList AchievementRecord.id
       (achievements.filter (fun r => (goals.map Goal.id).contains r.goalId))⟩
    ?_ r hr
  intro r' hr'
  exact Or.inl (List.mem_of_mem_filter hr')

/-- C7. A goal whose `totalHours` is `0` (target duration converting to 0 ms)
is unconditionally skipped by the evaluator: no new achievement record for
that goal is produced, whatever its `totalTimeSpent`; every record for that
goal in the output was already stored. -/
theorem zero_hours_goal_skipped (goals : List Goal)
    (achievements : List AchievementRecord) (now : Int) (g : Goal)
    (hnd : (goals.map Goal.id).Nodup) (hg : g ∈ goals)
    (hzero : g.totalHours = 0) :
    ∀ r ∈ evaluateAchievements goals achievements now,
      r.goalId = g.id → r ∈ achievements := by
  intro r hr hid
  rcases evalAchievements_mem goals achievements now r hr with h | ⟨g', hg', hgid, hpos⟩
  · exact h
  · have hgg : g' = g :=
      List.inj_on_of_nodup_map hnd hg' hg (by rw [hgid, hid])
    rw [hgg, hzero] at hpos
    simp [hoursToMilliseconds] at hpos

/-! ## C5: merge is idempotent up to ordering -/

/-- Merging a list of goals each of which is already stored under its own id
changes nothing and logs one self-tie conflict (resolved `local`) per goal. -/
theorem mergeGoalsLoop_self :
    ∀ (gs : List Goal) (m : JsMap Goal) (cs : List SyncConflict),
      (∀ g ∈ gs, m.get? g.id = some g) →
      mergeGoalsLoop m cs gs =
        (m, cs ++ gs.map (fun g => ⟨"goal", g.id, g, g, "local"⟩)) := by
  intro gs
  induction gs with
  | nil => intro m cs _; simp [mergeGoalsLoop]
  | cons g rest ih =>
    intro m cs hall
    have hget : m.get? g.id = some g := hall g (List.mem_cons_self _ _)
    have hstep := mergeGoalStep_eq_tie_local m cs hget rfl (lt_irrefl _)
    have hcons : mergeGoalsLoop m cs (g :: rest) =
        mergeGoalsLoop m (cs ++ [⟨"goal", g.id, g, g, "local"⟩]) rest := by
      show mergeGoalsLoop (mergeGoalStep m cs g).1 (mergeGoalStep m cs g).2 rest = _
      rw [hstep]
    rw [hcons, ih _ _ (fun x hx => hall x (List.mem_cons_of_mem _ hx))]
    simp

/-- Re-inserting sessions that are all already present changes nothing. -/
theorem mergeSessionsLoop_self :
    ∀ (rs : List GoalSession) (m : JsMap GoalSession),
      (∀ s ∈ rs, m.has s.id = true) → mergeSessionsLoop m rs = m := by
  intro rs
  induction rs with
  | nil => intro m _; rfl
  | cons s rest ih =>
    intro m hall
    have hs : m.has s.id = true := hall s (List.mem_cons_self _ _)
    show mergeSessionsLoop (if m.has s.id then m else m.set s.id s) rest = m
    rw [if_pos hs]
    exact ih m (fun x hx => hall x (List.mem_cons_of_mem _ hx))

/-- Re-merging achievements that are already stored verbatim changes
nothing (a record never beats itself on `unlockedAt`). -/
theorem mergeAchievementsLoop_self :
    ∀ (rs : List AchievementRecord) (m : JsMap AchievementRecord),
      (∀ a ∈ rs, m.get? a.id = some a) → mergeAchievementsLoop m rs = m := by
  intro rs
  induction rs with
  | nil => intro m _; rfl
  | cons a rest ih =>
    intro m hall
    have hget : m.get? a.id = some a := hall a (List.mem_cons_self _ _)
    have hstep : mergeAchievementStep m a = m := by
      simp [mergeAchievementStep, hget]
    show mergeAchievementsLoop (mergeAchievementStep m a) rest = m
    rw [hstep]
    exact ih m (fun x hx => hall x (List.mem_cons_of_mem _ hx))

/-- C5. Merging a well-formed snapshot with an identical copy of itself
returns the same goals list, the same achievements list, a session list
equal to the input as a set, the same active session, and only self-tie
conflicts whose local and remote contents are identical (each resolved
`local`, per the tie-break). -/
theorem merge_idempotent (S : SyncData)
    (hG : (S.goals.map Goal.id).Nodup)
    (hS : (S.sessions.map GoalSession.id).Nodup)
    (hA : (S.achievements.map AchievementRecord.id).Nodup) :
    (merge S S).goals = S.goals ∧
    (∀ s : GoalSession, s ∈ (merge S S).sessions ↔ s ∈ S.sessions) ∧
    (merge S S).achievements = S.achievements ∧
    (merge S S).activeSession = S.activeSession ∧
    (∀ c ∈ (merge S S).conflicts,
      c.localVersion = c.remoteVersion ∧ c.type = "goal" ∧ c.resolution = "local") := by
  have hgoals : mergeGoalsLoop (JsMap.ofList Goal.id S.goals) [] S.goals =
      (JsMap.ofList Goal.id S.goals,
        S.goals.map (fun g => ⟨"goal", g.id, g, g, "local"⟩)) := by
    rw [mergeGoalsLoop_self S.goals _ []
      (fun g hg => JsMap.get?_ofList_of_nodup hG hg)]
    simp
  refine ⟨?_, ?_, ?_, ?_, ?_⟩
  · rw [merge_goals_def]
    show (mergeGoalsLoop (JsMap.ofList Goal.id S.goals) [] S.goals).1.values = _
    rw [hgoals]
    exact JsMap.values_ofList_of_nodup hG
  · intro s
    rw [merge_sessions_def]
    show s ∈ (mergeSessionsLoop (JsMap.ofList GoalSession.id S.sessions)
      S.sessions).values.insertionSort (fun a b => a.startTime ≤ b.startTime) ↔ _
    rw [mergeSessionsLoop_self S.sessions _
      (fun x hx => by
        simp [JsMap.has, JsMap.get?_ofList_of_nodup hS hx])]
    rw [JsMap.values_ofList_of_nodup hS]
    exact (List.perm_insertionSort _ S.sessions).mem_iff
  · rw [merge_achievements_def]
    show (mergeAchievementsLoop (JsMap.ofList AchievementRecord.id S.achievements)
      S.achievements).values = _
    rw [mergeAchievementsLoop_self S.achievements _
      (fun a ha => JsMap.get?_ofList_of_nodup hA ha)]
    exact JsMap.values_ofList_of_nodup hA
  · rw [merge_activeSession_def]
    cases h : S.activeSession with
    | none => rfl
    | some a => simp [mergeActiveSession]
  · intro c hc
    rw [merge_conflicts_def] at hc
    have : (mergeGoals S.goals S.goals).2 =
        S.goals.map (fun g => ⟨"goal", g.id, g, g, "local"⟩) := by
      show (mergeGoalsLoop (JsMap.ofList Goal.id S.goals) [] S.goals).2 = _
      rw [hgoals]
    rw [this] at hc
    rcases List.mem_map.mp hc with ⟨g, _, rfl⟩
    exact ⟨rfl, rfl, rfl⟩

/-- Witness for C5 at a concrete snapshot with one goal, one session, one
achievement and an active session. -/
theorem merge_idempotent_witness :
    (merge sampleSnap sampleSnap).goals = sampleSnap.goals ∧
    (∀ s : GoalSession, s ∈ (merge sampleSnap sampleSnap).sessions ↔
      s ∈ sampleSnap.sessions) ∧
    (merge sampleSnap sampleSnap).achievements = sampleSnap.achievements ∧
    (merge sampleSnap sampleSnap).activeSession = sampleSnap.activeSession ∧
    (∀ c ∈ (merge sampleSnap sampleSnap).conflicts,
      c.localVersion = c.remoteVersion ∧ c.type = "goal" ∧ c.resolution = "local") :=
  merge_idempotent sampleSnap (by decide) (by decide) (by decide)

/-- Witness for C7: the evaluator run on the zero-target goal (with large
`totalTimeSpent`) and an empty record store produces no record for it. -/
theorem zero_hours_goal_skipped_witness :
    (([zeroHoursGoal].map Goal.id).Nodup) ∧ zeroHoursGoal.totalHours = 0 ∧
    (∀ r ∈ evaluateAchievements [zeroHoursGoal] [] 0,
      r.goalId = zeroHoursGoal.id → r ∈ ([] : List AchievementRecord)) :=
  ⟨by decide, rfl,
   zero_hours_goal_skipped [zeroHoursGoal] [] 0 zeroHoursGoal (by decide)
     (List.mem_singleton.mpr rfl) rfl⟩

end Mastery
